import Mathlib

/-!
# cursesINDI: property registry, redraw coordination and edit/toggle input

A shallow embedding of `utils/cursesINDI/cursesINDI.hpp`.

* `std::map<std::string, V>` is a list of key/value pairs kept in ascending key order
  (`StdMap`); its operations are written as the ordered scans the container performs.
* The class `cursesINDI` is a record of the members the code reads and writes; the two outbound
  calls `sendGetProperties` and `sendNewProperty` append to a log held in the record.
* The calls into the table widget and curses (`draw`, `moveSelected`, `wprintw`, `wclear`,
  `wrefresh`, `curs_set`) paint the screen and move the selection; they do not touch the
  registry, the counters or the row contents and are left out. `m_drawMutex` is left out:
  each function is one sequential step, run with no other thread active.
* `int` members are unbounded integers: the counters would need 2^31 events between two render
  cycles to overflow.
* Keyboard input is the list of values successive `wgetch` calls return; a function that would
  wait for a key when the list is exhausted returns `none`.
-/

namespace CursesINDI

/-! ## `std::map<std::string, V>` -/

/-- Key order of std::map with string keys: lexicographic comparison of the characters. -/
def keyLess (a b : String) : Bool := decide (a.data < b.data)

/-- A std::map with string keys, as the sequence of its entries in iteration order. -/
abbrev StdMap (V : Type) := List (String × V)

namespace StdMap

variable {V : Type}

/-- Container invariant of std::map: keys strictly ascending (hence unique). -/
def Sorted (m : StdMap V) : Prop := List.Pairwise (fun a b => a.1.data < b.1.data) m

instance (m : StdMap V) : Decidable (Sorted m) := by
  unfold Sorted; infer_instance

/-- Member function find: the value stored under `k`, if any. -/
def find : StdMap V → String → Option V
  | [], _ => none
  | (k', v) :: rest, k => if k' = k then some v else find rest k

/-- Member function insert(value_type): adds `(k, v)` at its ordered position unless an
equivalent key is present; the Boolean is the `second` of the returned pair. -/
def insert : StdMap V → String → V → StdMap V × Bool
  | [], k, v => ([(k, v)], true)
  | (k', v') :: rest, k, v =>
    if keyLess k k' then ((k, v) :: (k', v') :: rest, true)
    else if keyLess k' k then ((k', v') :: (insert rest k v).1, (insert rest k v).2)
    else ((k', v') :: rest, false)

/-- Assignment through the iterator returned by a failed insert: the entry whose key is `k`
gets the value `v`. -/
def assign : StdMap V → String → V → StdMap V
  | [], _, _ => []
  | (k', v') :: rest, k, v => if k' = k then (k', v) :: rest else (k', v') :: assign rest k v

/-- Member function erase(key): removes the entry whose key is `k`, if any. -/
def erase : StdMap V → String → StdMap V
  | [], _ => []
  | (k', v') :: rest, k => if k' = k then rest else (k', v') :: erase rest k

/-- The value `operator[]` refers to: the stored one, or a value-initialised one. -/
def valueAt [Inhabited V] (m : StdMap V) (k : String) : V := (find m k).getD default

/-- The map after `operator[]`: a missing key is inserted with a value-initialised value. -/
def touch [Inhabited V] (m : StdMap V) (k : String) : StdMap V :=
  match find m k with
  | some _ => m
  | none => (insert m k default).1

end StdMap

/-! ## INDI properties and elements (library types used by the class) -/

/-- Modelled from the spec: `pcf::IndiElement::SwitchStateType` (INDI/libcommon) is not among
the sources; the code names `On` and `Off` and a remaining unknown state. -/
inductive SwitchStateType where
  | UnknownSwitchState
  | Off
  | On
  deriving DecidableEq, Repr

/-- Modelled from the spec: `pcf::IndiProperty::Type` (INDI/libcommon) is not among the
sources; the kinds the spec lists, plus the unknown kind of a default property. -/
inductive PropertyType where
  | Unknown
  | BLOB
  | Light
  | Number
  | Switch
  | Text
  deriving DecidableEq, Repr

/-- Modelled from the spec: `pcf::IndiElement` (INDI/libcommon) is not among the sources; a
named scalar field with a string value and a switch state. -/
structure IndiElement where
  name : String
  value : String
  switchState : SwitchStateType
  deriving DecidableEq, Repr

/-- Modelled from the spec: `pcf::IndiProperty` (INDI/libcommon) is not among the sources; a
kind, a device name, a property name and the map of its elements. -/
structure IndiProperty where
  type : PropertyType
  device : String
  name : String
  elements : StdMap IndiElement
  deriving DecidableEq, Repr

instance : Inhabited IndiProperty := ⟨⟨PropertyType.Unknown, "", "", []⟩⟩

namespace IndiProperty

/-- Modelled from the spec: `hasValidDevice` is not among the sources; an event has an
identifiable device when its device name is not empty. -/
def hasValidDevice (ip : IndiProperty) : Bool := decide (ip.device ≠ "")

/-- Modelled from the spec: `hasValidName` is not among the sources; an event has an
identifiable property name when its name is not empty. -/
def hasValidName (ip : IndiProperty) : Bool := decide (ip.name ≠ "")

/-- Modelled from the spec: `createUniqueKey` is not among the sources; the key derived from
(device, property name), written `camera1.exposure` for device `camera1`, name `exposure`. -/
def createUniqueKey (ip : IndiProperty) : String := ip.device ++ "." ++ ip.name

end IndiProperty

/-- Modelled from the spec: `getSwitchStateString` is not among the sources; the two
recognised states print as `On` and `Off`. -/
def getSwitchStateString : SwitchStateType → String
  | SwitchStateType.UnknownSwitchState => ""
  | SwitchStateType.Off => "Off"
  | SwitchStateType.On => "On"

/-- The function displayValue: the formatted value of element `el` of `ip`, empty when the
element is not in the property. -/
def displayValue (ip : IndiProperty) (el : String) : String :=
  match StdMap.find ip.elements el with
  | none => ""
  | some e =>
    if ip.type = PropertyType.Switch then getSwitchStateString e.switchState
    else e.value

/-! ## The class -/

/-- The struct cursesINDI::elementSpec. -/
structure elementSpec where
  propKey : String
  device : String
  propertyName : String
  name : String
  tableRow : Int
  deriving DecidableEq, Repr

abbrev propMapT := StdMap IndiProperty

abbrev elementMapT := StdMap elementSpec

/-- The members of class cursesINDI that the embedded functions use. `m_cellContents`,
`m_currY` and `m_startRow` come from the base class cursesTableGrid (the two cursor members
are taken as non-negative), `quitProcess` is the value `getQuitProcess()` returns, and the two
`sent` lists record the calls made to `sendGetProperties` and `sendNewProperty`. -/
structure cursesINDI where
  m_redraw : Int
  m_update : Int
  m_cursStat : Int
  m_shutdown : Bool
  m_connectionLost : Bool
  knownProps : propMapT
  knownElements : elementMapT
  m_cellContents : List (List String)
  m_currY : Nat
  m_startRow : Nat
  quitProcess : Bool
  sentGetProperties : List IndiProperty
  sentNewProperty : List IndiProperty
  deriving DecidableEq, Repr

namespace cursesINDI

/-- A freshly constructed object. -/
def init : cursesINDI :=
  { m_redraw := 0, m_update := 0, m_cursStat := 1, m_shutdown := false,
    m_connectionLost := false, knownProps := [], knownElements := [], m_cellContents := [],
    m_currY := 0, m_startRow := 0, quitProcess := false, sentGetProperties := [],
    sentNewProperty := [] }

/-! ### Event handlers -/

/-- The element loop of handleDefProperty, over the elements of `ipRecv` still to visit. -/
def defElements (ipRecv : IndiProperty) : List (String × IndiElement) → cursesINDI → cursesINDI
  | [], c => c
  | (_, el) :: rest, c =>
    let es : elementSpec :=
      { propKey := ipRecv.createUniqueKey, device := ipRecv.device,
        propertyName := ipRecv.name, name := el.name, tableRow := -1 }
    let key := es.propKey ++ "." ++ es.name
    let elResult := StdMap.insert c.knownElements key es
    if elResult.2 = true then
      defElements ipRecv rest { c with knownElements := elResult.1, m_redraw := c.m_redraw + 1 }
    else
      defElements ipRecv rest { c with knownElements := elResult.1, m_update := c.m_update + 1 }

/-- The member function handleDefProperty. -/
def handleDefProperty (ipRecv : IndiProperty) (c : cursesINDI) : cursesINDI :=
  if (!ipRecv.hasValidDevice && !ipRecv.hasValidName) = true then c
  else
    let result := StdMap.insert c.knownProps ipRecv.createUniqueKey ipRecv
    let c1 : cursesINDI :=
      if result.2 = false then
        { c with knownProps := StdMap.assign result.1 ipRecv.createUniqueKey ipRecv }
      else
        { c with knownProps := result.1, sentGetProperties := c.sentGetProperties ++ [ipRecv] }
    defElements ipRecv ipRecv.elements c1

/-- The erase loop of handleDelProperty over knownElements. -/
def eraseDevice (device : String) : elementMapT → elementMapT
  | [] => []
  | (k, es) :: rest =>
    if es.device = device then eraseDevice device rest else (k, es) :: eraseDevice device rest

/-- The member function handleDelProperty. -/
def handleDelProperty (ipRecv : IndiProperty) (c : cursesINDI) : cursesINDI :=
  let c1 : cursesINDI :=
    if ipRecv.hasValidDevice = true then
      if (!ipRecv.hasValidName) = true then
        { c with knownElements := eraseDevice ipRecv.device c.knownElements,
                 knownProps := StdMap.erase c.knownProps ipRecv.device }
      else
        { c with knownElements := StdMap.erase c.knownElements ipRecv.createUniqueKey }
    else c
  { c1 with m_redraw := c1.m_redraw + 1 }

/-- The member function handleMessage. -/
def handleMessage (_ipRecv : IndiProperty) (c : cursesINDI) : cursesINDI := c

/-- The member function handleSetProperty. -/
def handleSetProperty (ipRecv : IndiProperty) (c : cursesINDI) : cursesINDI :=
  handleDefProperty ipRecv c

/-! ### Rendering -/

/-- The five cells of one table row, built in the loop of redrawTable: the columns set by
`colWidth` in the constructor. `ip` is the property `knownProps[es.propKey]` refers to. -/
def rowOf (rowsSoFar : Nat) (ip : IndiProperty) (es : elementSpec) : List String :=
  [toString (rowsSoFar + 1), ip.device, ip.name, es.name, displayValue ip es.name]

/-- The loop of redrawTable over the entries of knownElements still to visit; returns the
visited entries with their new tableRow, knownProps and m_cellContents. -/
def redrawLoop : elementMapT → propMapT → List (List String) →
    elementMapT × propMapT × List (List String)
  | [], kp, cells => ([], kp, cells)
  | (k, es) :: rest, kp, cells =>
    let ip := StdMap.valueAt kp es.propKey
    let kp1 := StdMap.touch kp es.propKey
    let cells1 := cells ++ [rowOf cells.length ip es]
    let es1 : elementSpec := { es with tableRow := ((cells1.length - 1 : Nat) : Int) }
    let r := redrawLoop rest kp1 cells1
    ((k, es1) :: r.1, r.2.1, r.2.2)

/-- First part of redrawTable: capture `start_redraw`, clear and rebuild the rows. -/
def redrawRebuild (c : cursesINDI) : cursesINDI × Int :=
  let start_redraw := c.m_redraw
  let r := redrawLoop c.knownElements c.knownProps []
  ({ c with knownElements := r.1, knownProps := r.2.1, m_cellContents := r.2.2 }, start_redraw)

/-- Last part of redrawTable: subtract the captured count, floored at zero. -/
def redrawSettle (start_redraw : Int) (c : cursesINDI) : cursesINDI :=
  let m := c.m_redraw - start_redraw
  { c with m_redraw := if m < 0 then 0 else m }

/-- The member function redrawTable. -/
def redrawTable (c : cursesINDI) : cursesINDI :=
  redrawSettle (redrawRebuild c).2 (redrawRebuild c).1

/-- The loop of updateTable over the entries of knownElements still to visit; `none` when a
vector is indexed out of range. -/
def updateLoop : elementMapT → propMapT → List (List String) →
    Option (propMapT × List (List String))
  | [], kp, cells => some (kp, cells)
  | (_, es) :: rest, kp, cells =>
    if es.tableRow = -1 then updateLoop rest kp cells
    else if es.tableRow < 0 then none
    else
      match cells[es.tableRow.toNat]? with
      | none => none
      | some row =>
        match row[4]? with
        | none => none
        | some shown =>
          let ip := StdMap.valueAt kp es.propKey
          let kp1 := StdMap.touch kp es.propKey
          if shown ≠ displayValue ip es.name then
            updateLoop rest kp1
              (cells.set es.tableRow.toNat (row.set 4 (displayValue ip es.name)))
          else updateLoop rest kp1 cells

/-- First part of updateTable after the pending-redraw test: capture `start_update` and patch
the value cells. -/
def updatePatch (c : cursesINDI) : Option (cursesINDI × Int) :=
  let start_update := c.m_update
  match updateLoop c.knownElements c.knownProps c.m_cellContents with
  | none => none
  | some r => some ({ c with knownProps := r.1, m_cellContents := r.2 }, start_update)

/-- Last part of updateTable: subtract the captured count, floored at zero. -/
def updateSettle (start_update : Int) (c : cursesINDI) : cursesINDI :=
  let m := c.m_update - start_update
  { c with m_update := if m < 0 then 0 else m }

/-- The member function updateTable. -/
def updateTable (c : cursesINDI) : Option cursesINDI :=
  if c.m_redraw ≠ 0 then some c
  else
    match updatePatch c with
    | none => none
    | some r => some (updateSettle r.2 r.1)

/-- One pass through the body of the while loop of drawThreadExec. -/
def drawThreadBody (c : cursesINDI) : Option cursesINDI :=
  let c1 := if c.m_redraw > 0 then redrawTable c else c
  if c1.m_update > 0 then updateTable c1 else some c1

/-- The code of drawThreadExec after its while loop. -/
def drawThreadEnd (c : cursesINDI) : cursesINDI :=
  if (c.quitProcess && !c.m_shutdown) = true then
    let c1 : cursesINDI := { c with m_connectionLost := true }
    let c2 : cursesINDI := { c1 with m_cellContents := [] }
    let c3 := redrawTable c2
    { c3 with m_shutdown := true }
  else c

/-- The member function drawThreadExec, for at most `fuel` passes through the loop. -/
def drawThreadExec : Nat → cursesINDI → Option cursesINDI
  | 0, c =>
    if (!c.m_shutdown && !c.quitProcess) = true then none else some (drawThreadEnd c)
  | fuel + 1, c =>
    if (!c.m_shutdown && !c.quitProcess) = true then
      match drawThreadBody c with
      | none => none
      | some c1 => drawThreadExec fuel c1
    else some (drawThreadEnd c)

/-! ### Keyboard interaction -/

/-- The value wgetch returns when no key arrived. -/
def ERR : Int := -1

/-- The curses key code KEY_BACKSPACE (octal 0407). -/
def KEY_BACKSPACE : Int := 263

/-- The test std::isprint in the C locale. -/
def isprint (nch : Int) : Bool := decide (32 ≤ nch ∧ nch ≤ 126)

/-- The conversion `(char) nch`. -/
def toChar (nch : Int) : Char := Char.ofNat (nch % 256).toNat

/-- The conversion `(size_t) tableRow`. -/
def toSizeT (i : Int) : Nat := (i % 2 ^ 64).toNat

/-- The search loop of keyPressed: the first entry of knownElements, in key order, whose
tableRow is the cursor row. -/
def findRow (row : Nat) : elementMapT → Option elementSpec
  | [] => none
  | (_, es) :: rest => if toSizeT es.tableRow = row then some es else findRow row rest

/-- The member function cursStat(int). -/
def cursStat (cs : Int) (c : cursesINDI) : cursesINDI := { c with m_cursStat := cs }

/-- The capture loop of case e, reading the keys `wgetch` returns: yields the flag `escape`,
the string `newStr` (as its characters), the object and the keys not consumed; `none` when the
loop is left waiting for a key. -/
def editLoop : List Int → List Char → cursesINDI →
    Option (Bool × List Char × cursesINDI × List Int)
  | [], _, _ => none
  | nch :: keys, newStr, c =>
    if nch = 10 then some (false, newStr, c, keys)
    else if nch = ERR then
      if c.quitProcess = true then
        some (false, newStr,
          if (!c.m_shutdown) = true then { c with m_connectionLost := true } else c, keys)
      else editLoop keys newStr c
    else
      let c1 := cursStat 1 c
      if nch = 27 then some (true, newStr, c1, keys)
      else if nch = KEY_BACKSPACE then
        if newStr.length > 0 then editLoop keys newStr.dropLast c1
        else editLoop keys newStr c1
      else if isprint nch = true then editLoop keys (newStr ++ [toChar nch]) c1
      else editLoop keys newStr c1

/-- The loop `while((nch = wgetch(w_interactWin)) == ERR)`: the first value that is not ERR. -/
def confirmKey : List Int → Option (Int × List Int)
  | [] => none
  | nch :: keys => if nch = ERR then confirmKey keys else some (nch, keys)

/-- The property ipSend built in case e. -/
def editRequest (ip : IndiProperty) (es : elementSpec) (newStr : List Char) : IndiProperty :=
  { type := ip.type, device := ip.device, name := ip.name,
    elements := [(es.name, { name := es.name, value := String.mk newStr,
                             switchState := SwitchStateType.UnknownSwitchState })] }

/-- The property ipSend built in case t. -/
def toggleRequest (ip : IndiProperty) (es : elementSpec) (toggleState : SwitchStateType) :
    IndiProperty :=
  { type := ip.type, device := ip.device, name := ip.name,
    elements := [(es.name, { name := es.name, value := "", switchState := toggleState })] }

/-- The statements of keyPressed after the switch. -/
def keyDone (c : cursesINDI) : cursesINDI := cursStat 0 c

/-- Case e of keyPressed. -/
def keyEdit (keys : List Int) (c : cursesINDI) : Option (cursesINDI × List Int) :=
  if c.m_currY + c.m_startRow ≥ c.knownElements.length then some (keyDone c, keys)
  else
    match findRow (c.m_currY + c.m_startRow) c.knownElements with
    | none => some (keyDone c, keys)
    | some es =>
      match editLoop keys [] (cursStat 1 c) with
      | none => none
      | some (escape, newStr, c1, keys1) =>
        if escape = true then some (keyDone c1, keys1)
        else
          match confirmKey keys1 with
          | none => none
          | some (nch, keys2) =>
            if nch = 121 then
              let ip := StdMap.valueAt c1.knownProps es.propKey
              let c2 : cursesINDI :=
                { c1 with knownProps := StdMap.touch c1.knownProps es.propKey,
                          sentNewProperty := c1.sentNewProperty ++ [editRequest ip es newStr] }
              some (keyDone c2, keys2)
            else some (keyDone c1, keys2)

/-- The part of case t after the toggle state is chosen. -/
def toggleConfirm (es : elementSpec) (toggleState : SwitchStateType) (keys : List Int)
    (c : cursesINDI) : Option (cursesINDI × List Int) :=
  match confirmKey keys with
  | none => none
  | some (nch, keys1) =>
    if nch = 121 then
      let ip := StdMap.valueAt c.knownProps es.propKey
      let c1 : cursesINDI :=
        { c with sentNewProperty := c.sentNewProperty ++ [toggleRequest ip es toggleState] }
      some (keyDone c1, keys1)
    else some (keyDone c, keys1)

/-- Case t of keyPressed. -/
def keyToggle (keys : List Int) (c : cursesINDI) : Option (cursesINDI × List Int) :=
  if c.m_currY + c.m_startRow ≥ c.knownElements.length then some (keyDone c, keys)
  else
    match findRow (c.m_currY + c.m_startRow) c.knownElements with
    | none => some (keyDone c, keys)
    | some es =>
      let ip := StdMap.valueAt c.knownProps es.propKey
      let c1 : cursesINDI := { c with knownProps := StdMap.touch c.knownProps es.propKey }
      match StdMap.find ip.elements es.name with
      | none => some (keyDone c1, keys)
      | some el =>
        if el.switchState = SwitchStateType.Off then
          toggleConfirm es SwitchStateType.On keys (cursStat 1 c1)
        else if el.switchState = SwitchStateType.On then
          toggleConfirm es SwitchStateType.Off keys (cursStat 1 c1)
        else some (keyDone c1, keys)

/-- The member function keyPressed; `keys` are the values later `wgetch` calls return. -/
def keyPressed (ch : Int) (keys : List Int) (c : cursesINDI) : Option (cursesINDI × List Int) :=
  if ch = 101 then keyEdit keys c
  else if ch = 116 then keyToggle keys c
  else some (c, keys)

/-! ### Event sequences -/

/-- Handling a sequence of define/update events, in order. -/
def defineAll (evs : List IndiProperty) (c : cursesINDI) : cursesINDI :=
  evs.foldl (fun s ip => handleDefProperty ip s) c

/-- How many of the subscribe requests in `sent` are for the property key `k`. -/
def subscribeCount (k : String) (sent : List IndiProperty) : Nat :=
  (sent.map IndiProperty.createUniqueKey).count k

/-! ### The candidate string of an edit, as the specification words it -/

/-- One keystroke of the capture: backspace removes the last character (no change when the
string is empty), a printable character is appended, any other key changes nothing. -/
def candidateStep (s : List Char) (nch : Int) : List Char :=
  if nch = KEY_BACKSPACE then s.dropLast
  else if isprint nch = true then s ++ [toChar nch]
  else s

/-- The candidate string after the keystrokes `typed`. -/
def candidate (typed : List Int) : List Char := typed.foldl candidateStep []

/-! ### Sample data -/

/-- Property `exposure` of device `camera1`, a Number with the single element `value`. -/
def exposure (v : String) : IndiProperty :=
  { type := PropertyType.Number, device := "camera1", name := "exposure",
    elements := [("value", { name := "value", value := v,
                             switchState := SwitchStateType.UnknownSwitchState })] }

/-- Property `shutter` of device `camera1`, a Switch with the single element `toggle`. -/
def shutter (st : SwitchStateType) : IndiProperty :=
  { type := PropertyType.Switch, device := "camera1", name := "shutter",
    elements := [("toggle", { name := "toggle", value := "", switchState := st })] }

/-- Delete event for the property `exposure` of device `camera1`. -/
def delExposure : IndiProperty :=
  { type := PropertyType.Unknown, device := "camera1", name := "exposure", elements := [] }

/-- Delete event for the whole device `camera1`. -/
def delCamera1 : IndiProperty :=
  { type := PropertyType.Unknown, device := "camera1", name := "", elements := [] }

/-- A define event with a device but no property name. -/
def namelessEvent : IndiProperty :=
  { type := PropertyType.Number, device := "camera1", name := "",
    elements := [("value", { name := "value", value := "1.0",
                             switchState := SwitchStateType.UnknownSwitchState })] }

/-- A define event with neither a device nor a property name. -/
def anonymousEvent : IndiProperty :=
  { type := PropertyType.Number, device := "", name := "",
    elements := [("value", { name := "value", value := "1.0",
                             switchState := SwitchStateType.UnknownSwitchState })] }

/-- The object after `camera1.exposure` with `value=1.0` was defined. -/
def oneElement : cursesINDI := handleDefProperty (exposure "1.0") init

/-- The object after `camera1.exposure` was defined and then updated to `value=2.0`, before
any render cycle: both counters are 1. -/
def bothPending : cursesINDI := handleDefProperty (exposure "2.0") oneElement

/-- The object `oneElement` at the moment the peer has disconnected. -/
def disconnected : cursesINDI := { oneElement with quitProcess := true }

/-- The object after `camera1.exposure` and `camera1.shutter` were defined and rendered. -/
def twoRows (st : SwitchStateType) : cursesINDI :=
  redrawTable (handleDefProperty (shutter st) oneElement)

/-- The object after `camera1.exposure` with `value=1.0` was defined and rendered; the cursor
is on its row. -/
def oneRow : cursesINDI := redrawTable oneElement

/-- The object `twoRows st` with the cursor on the second row, the element `toggle`. -/
def cursorOnShutter (st : SwitchStateType) : cursesINDI := { twoRows st with m_currY := 1 }

/-- The ElementSpec of `camera1.shutter.toggle` once rendered in the second row. -/
def shutterSpec : elementSpec :=
  { propKey := "camera1.shutter", device := "camera1", propertyName := "shutter",
    name := "toggle", tableRow := 1 }

/-- The ElementSpec of `camera1.exposure.value` once rendered in the first row. -/
def exposureSpec : elementSpec :=
  { propKey := "camera1.exposure", device := "camera1", propertyName := "exposure",
    name := "value", tableRow := 0 }

end cursesINDI

end CursesINDI
namespace CursesINDI

/-! ## Facts about the map operations -/

theorem keyLess_iff (a b : String) : keyLess a b = true ↔ a.data < b.data := by
  simp [keyLess]

theorem key_eq_of_not_less {a b : String} (h1 : ¬ a.data < b.data) (h2 : ¬ b.data < a.data) :
    a = b :=
  String.ext (le_antisymm (not_lt.mp h2) (not_lt.mp h1))

theorem key_ne_of_less {a b : String} (h : a.data < b.data) : a ≠ b := by
  intro e
  subst e
  exact lt_irrefl _ h

namespace StdMap

variable {V : Type}

theorem sorted_cons {k : String} {v : V} {m : StdMap V} :
    Sorted ((k, v) :: m) ↔ (∀ x ∈ m, k.data < x.1.data) ∧ Sorted m := by
  unfold Sorted
  exact List.pairwise_cons

theorem find_eq_none_of_lt {m : StdMap V} {k : String} (h : ∀ x ∈ m, k.data < x.1.data) :
    find m k = none := by
  induction m with
  | nil => rfl
  | cons x rest ih =>
    obtain ⟨k', v'⟩ := x
    have hk : k.data < k'.data := h (k', v') (List.mem_cons_self _ _)
    have hne : k' ≠ k := fun e => key_ne_of_less hk e.symm
    simp only [find, if_neg hne]
    exact ih (fun y hy => h y (List.mem_cons_of_mem _ hy))

theorem mem_insert {m : StdMap V} {k : String} {v : V} {x : String × V}
    (hx : x ∈ (insert m k v).1) : x = (k, v) ∨ x ∈ m := by
  induction m with
  | nil => simpa [insert] using hx
  | cons y rest ih =>
    obtain ⟨k', v'⟩ := y
    unfold insert at hx
    split at hx
    · rcases List.mem_cons.mp hx with h | h
      · exact Or.inl h
      · exact Or.inr h
    · split at hx
      · rcases List.mem_cons.mp hx with h | h
        · exact Or.inr (h ▸ List.mem_cons_self _ _)
        · rcases ih h with h2 | h2
          · exact Or.inl h2
          · exact Or.inr (List.mem_cons_of_mem _ h2)
      · exact Or.inr hx

theorem sorted_insert {m : StdMap V} (k : String) (v : V) (hm : Sorted m) :
    Sorted (insert m k v).1 := by
  induction m with
  | nil => simp [insert, Sorted]
  | cons y rest ih =>
    obtain ⟨k', v'⟩ := y
    obtain ⟨hlt, hrest⟩ := sorted_cons.mp hm
    unfold insert
    split
    · rename_i h
      have hk : k.data < k'.data := (keyLess_iff _ _).mp h
      refine sorted_cons.mpr ⟨?_, hm⟩
      intro x hx
      rcases List.mem_cons.mp hx with h1 | h1
      · rw [h1]; exact hk
      · exact lt_trans hk (hlt x h1)
    · split
      · rename_i _ h
        have hk : k'.data < k.data := (keyLess_iff _ _).mp h
        refine sorted_cons.mpr ⟨?_, ih hrest⟩
        intro x hx
        rcases mem_insert hx with h1 | h1
        · rw [h1]; exact hk
        · exact hlt x h1
      · exact hm

theorem insert_snd_iff {m : StdMap V} (k : String) (v : V) (hm : Sorted m) :
    (insert m k v).2 = true ↔ find m k = none := by
  induction m with
  | nil => simp [insert, find]
  | cons y rest ih =>
    obtain ⟨k', v'⟩ := y
    obtain ⟨hlt, hrest⟩ := sorted_cons.mp hm
    unfold insert
    split
    · rename_i h
      have hk : k.data < k'.data := (keyLess_iff _ _).mp h
      simp only [true_iff]
      apply find_eq_none_of_lt
      intro x hx
      rcases List.mem_cons.mp hx with h1 | h1
      · rw [h1]; exact hk
      · exact lt_trans hk (hlt x h1)
    · split
      · rename_i _ h
        have hk : k'.data < k.data := (keyLess_iff _ _).mp h
        simp only [find, if_neg (key_ne_of_less hk)]
        exact ih hrest
      · rename_i h1 h2
        have e : k' = k := by
          apply key_eq_of_not_less
          · intro h; exact h2 ((keyLess_iff _ _).mpr h)
          · intro h; exact h1 ((keyLess_iff _ _).mpr h)
        simp [find, e]

theorem insert_fst_of_old {m : StdMap V} {k : String} {v : V} (h : (insert m k v).2 = false) :
    (insert m k v).1 = m := by
  induction m with
  | nil => simp [insert] at h
  | cons y rest ih =>
    obtain ⟨k', v'⟩ := y
    unfold insert at h ⊢
    split
    · rename_i h1; simp [h1] at h
    · split
      · rename_i h1 h2
        simp only [if_neg h1, if_pos h2] at h
        simp only [ih h]
      · rfl

theorem find_insert_of_new {m : StdMap V} {k : String} {v : V} (h : (insert m k v).2 = true) :
    find (insert m k v).1 k = some v := by
  induction m with
  | nil => simp [insert, find]
  | cons y rest ih =>
    obtain ⟨k', v'⟩ := y
    unfold insert at h ⊢
    split
    · simp [find]
    · split
      · rename_i h1 h2
        simp only [if_neg h1, if_pos h2] at h
        have hk : k'.data < k.data := (keyLess_iff _ _).mp h2
        simp only [find, if_neg (key_ne_of_less hk)]
        exact ih h
      · rename_i h1 h2
        simp [if_neg h1, if_neg h2] at h

theorem find_isSome_of_old {m : StdMap V} {k : String} {v : V} (h : (insert m k v).2 = false) :
    (find m k).isSome = true := by
  induction m with
  | nil => simp [insert] at h
  | cons y rest ih =>
    obtain ⟨k', v'⟩ := y
    unfold insert at h
    split at h
    · simp at h
    · split at h
      · rename_i h2
        have hk : k'.data < k.data := (keyLess_iff _ _).mp h2
        simp only [find, if_neg (key_ne_of_less hk)]
        exact ih h
      · rename_i h1 h2
        have e : k' = k := by
          apply key_eq_of_not_less
          · intro h; exact h2 ((keyLess_iff _ _).mpr h)
          · intro h; exact h1 ((keyLess_iff _ _).mpr h)
        simp [find, e]

theorem find_insert_ne {m : StdMap V} {k k' : String} (v : V) (hne : k' ≠ k) :
    find (insert m k v).1 k' = find m k' := by
  induction m with
  | nil => simp [insert, find, Ne.symm hne]
  | cons y rest ih =>
    obtain ⟨k0, v0⟩ := y
    unfold insert
    split
    · simp [find, Ne.symm hne]
    · split
      · simp only [find, ih]
      · rfl

theorem find_assign_self {m : StdMap V} {k : String} (v : V) (h : (find m k).isSome = true) :
    find (assign m k v) k = some v := by
  induction m with
  | nil => simp [find] at h
  | cons y rest ih =>
    obtain ⟨k0, v0⟩ := y
    by_cases e : k0 = k
    · simp [assign, find, e]
    · simp only [find, if_neg e] at h
      simp only [assign, if_neg e, find]
      exact ih h

theorem find_assign_ne {m : StdMap V} {k k' : String} (v : V) (hne : k' ≠ k) :
    find (assign m k v) k' = find m k' := by
  induction m with
  | nil => rfl
  | cons y rest ih =>
    obtain ⟨k0, v0⟩ := y
    by_cases e : k0 = k
    · have e2 : k0 ≠ k' := fun h => hne (h ▸ e)
      subst e
      simp only [assign, find, if_neg e2, if_true]
    · simp only [assign, if_neg e, find, ih]

theorem keys_assign (m : StdMap V) (k : String) (v : V) :
    (assign m k v).map Prod.fst = m.map Prod.fst := by
  induction m with
  | nil => rfl
  | cons y rest ih =>
    obtain ⟨k0, v0⟩ := y
    by_cases e : k0 = k
    · simp [assign, e]
    · simp [assign, e, ih]

theorem sorted_iff_keys (m : StdMap V) :
    Sorted m ↔ List.Pairwise (fun a b : String => a.data < b.data) (m.map Prod.fst) := by
  unfold Sorted
  rw [List.pairwise_map]

theorem sorted_assign {m : StdMap V} (k : String) (v : V) (hm : Sorted m) :
    Sorted (assign m k v) := by
  rw [sorted_iff_keys, keys_assign, ← sorted_iff_keys]
  exact hm

end StdMap

end CursesINDI

namespace CursesINDI

namespace cursesINDI

/-! ## Event handlers -/

theorem defElements_knownProps (ip : IndiProperty) (els : List (String × IndiElement))
    (c : cursesINDI) : (defElements ip els c).knownProps = c.knownProps := by
  induction els generalizing c with
  | nil => rfl
  | cons x rest ih =>
    obtain ⟨k, el⟩ := x
    simp only [defElements]
    split <;> rw [ih]

theorem defElements_sentGetProperties (ip : IndiProperty) (els : List (String × IndiElement))
    (c : cursesINDI) : (defElements ip els c).sentGetProperties = c.sentGetProperties := by
  induction els generalizing c with
  | nil => rfl
  | cons x rest ih =>
    obtain ⟨k, el⟩ := x
    simp only [defElements]
    split <;> rw [ih]

/-- What one accepted define/update event does to the property store and the subscribe log. -/
theorem handleDefProperty_step (ip : IndiProperty) (c : cursesINDI)
    (hs : StdMap.Sorted c.knownProps)
    (hv : (!ip.hasValidDevice && !ip.hasValidName) = false) :
    (handleDefProperty ip c).sentGetProperties =
        c.sentGetProperties ++
          (if (StdMap.find c.knownProps ip.createUniqueKey).isSome = true then [] else [ip]) ∧
      StdMap.find (handleDefProperty ip c).knownProps ip.createUniqueKey = some ip ∧
      StdMap.Sorted (handleDefProperty ip c).knownProps ∧
      ∀ k, k ≠ ip.createUniqueKey →
        StdMap.find (handleDefProperty ip c).knownProps k = StdMap.find c.knownProps k := by
  unfold handleDefProperty
  rw [if_neg (by rw [hv]; exact Bool.false_ne_true)]
  simp only [defElements_knownProps, defElements_sentGetProperties]
  by_cases hins : (StdMap.insert c.knownProps ip.createUniqueKey ip).2 = true
  · have hnone := (StdMap.insert_snd_iff ip.createUniqueKey ip hs).mp hins
    have hf : ¬ (StdMap.insert c.knownProps ip.createUniqueKey ip).2 = false := by
      rw [hins]; exact Bool.noConfusion
    rw [if_neg hf]
    refine ⟨?_, ?_, ?_, ?_⟩
    · simp [hnone]
    · exact StdMap.find_insert_of_new hins
    · exact StdMap.sorted_insert _ _ hs
    · intro k hk
      exact StdMap.find_insert_ne ip hk
  · have hf : (StdMap.insert c.knownProps ip.createUniqueKey ip).2 = false := by
      simpa using hins
    have hsome := StdMap.find_isSome_of_old hf
    rw [if_pos hf, StdMap.insert_fst_of_old hf]
    refine ⟨?_, ?_, ?_, ?_⟩
    · simp [hsome]
    · exact StdMap.find_assign_self ip hsome
    · exact StdMap.sorted_assign _ _ hs
    · intro k hk
      exact StdMap.find_assign_ne ip hk

theorem handleDelProperty_m_redraw (ip : IndiProperty) (c : cursesINDI) :
    (handleDelProperty ip c).m_redraw = c.m_redraw + 1 := by
  unfold handleDelProperty
  split
  · split <;> rfl
  · rfl

/-- A delete event that names a property never changes knownProps. -/
theorem handleDelProperty_named_knownProps (ip : IndiProperty) (c : cursesINDI)
    (hn : ip.hasValidName = true) : (handleDelProperty ip c).knownProps = c.knownProps := by
  unfold handleDelProperty
  split
  · rw [if_neg (by simp [hn])]
  · rfl

theorem not_mem_eraseDevice (device : String) (m : elementMapT) :
    ∀ x ∈ eraseDevice device m, x.2.device ≠ device := by
  induction m with
  | nil => intro x hx; simp [eraseDevice] at hx
  | cons y rest ih =>
    obtain ⟨k, es⟩ := y
    intro x hx
    unfold eraseDevice at hx
    split at hx
    · exact ih x hx
    · rename_i hne
      rcases List.mem_cons.mp hx with h | h
      · rw [h]; exact hne
      · exact ih x h

theorem eraseDevice_eq_filter (device : String) (m : elementMapT) :
    eraseDevice device m = m.filter (fun x => decide (x.2.device ≠ device)) := by
  induction m with
  | nil => rfl
  | cons y rest ih =>
    obtain ⟨k, es⟩ := y
    by_cases h : es.device = device
    · simp [eraseDevice, h, ih]
    · simp [eraseDevice, h, ih]

/-- After a whole-device delete no ElementSpec of that device is left in knownElements, and
the ElementSpecs of other devices are kept, in order. -/
theorem handleDelProperty_device_knownElements (ip : IndiProperty) (c : cursesINDI)
    (hd : ip.hasValidDevice = true) (hn : ip.hasValidName = false) :
    (handleDelProperty ip c).knownElements =
        c.knownElements.filter (fun x => decide (x.2.device ≠ ip.device)) ∧
      ∀ x ∈ (handleDelProperty ip c).knownElements, x.2.device ≠ ip.device := by
  have e : (handleDelProperty ip c).knownElements = eraseDevice ip.device c.knownElements := by
    unfold handleDelProperty
    rw [if_pos hd, if_pos (by simp [hn])]
  rw [e]
  exact ⟨eraseDevice_eq_filter _ _, not_mem_eraseDevice _ _⟩

end cursesINDI

end CursesINDI

namespace CursesINDI

namespace StdMap

variable {V : Type}

/-! ## Facts about `operator[]` -/

theorem touch_of_isSome [Inhabited V] {m : StdMap V} {k : String}
    (h : (find m k).isSome = true) : touch m k = m := by
  unfold touch
  cases hf : find m k with
  | none => rw [hf] at h; exact absurd h (by simp)
  | some v => rfl

theorem find_touch_self [Inhabited V] (m : StdMap V) (k : String) :
    (find (touch m k) k).isSome = true := by
  unfold touch
  cases hf : find m k with
  | some v => simp [hf]
  | none =>
    simp only
    cases hins : (insert m k default).2 with
    | true => rw [find_insert_of_new hins]; rfl
    | false =>
      have := find_isSome_of_old hins
      rw [hf] at this
      exact absurd this (by simp)

theorem find_touch_ne [Inhabited V] (m : StdMap V) {k k' : String} (hne : k' ≠ k) :
    find (touch m k) k' = find m k' := by
  unfold touch
  cases hf : find m k with
  | some v => rfl
  | none => exact find_insert_ne default hne

theorem find_touch_mono [Inhabited V] (m : StdMap V) (k : String) {k' : String}
    (h : (find m k').isSome = true) : (find (touch m k) k').isSome = true := by
  by_cases e : k' = k
  · rw [e]; exact find_touch_self m k
  · rw [find_touch_ne m e]; exact h

theorem valueAt_touch [Inhabited V] (m : StdMap V) (k k' : String) :
    valueAt (touch m k) k' = valueAt m k' := by
  by_cases e : k' = k
  · subst e
    cases hf : find m k' with
    | some v => rw [touch_of_isSome (by simp [hf])]
    | none =>
      unfold valueAt touch
      rw [hf]
      simp only
      cases hins : (insert m k' default).2 with
      | true => rw [find_insert_of_new hins]; rfl
      | false => rw [insert_fst_of_old hins, hf]
  · unfold valueAt
    rw [find_touch_ne m e]

/-- In a proper map the entry at position `i` has exactly `i` keys below its own. -/
theorem countP_less_of_sorted {m : StdMap V} (hm : Sorted m) {i : Nat} {x : String × V}
    (hx : m[i]? = some x) : m.countP (fun y => decide (y.1.data < x.1.data)) = i := by
  induction m generalizing i with
  | nil => simp at hx
  | cons y rest ih =>
    obtain ⟨hlt, hrest⟩ := sorted_cons.mp hm
    cases i with
    | zero =>
      simp only [List.getElem?_cons_zero, Option.some.injEq] at hx
      subst hx
      rw [List.countP_cons_of_neg]
      · rw [List.countP_eq_zero]
        intro z hz
        simp only [decide_eq_true_eq]
        exact lt_asymm (hlt z hz)
      · simp
    | succ j =>
      simp only [List.getElem?_cons_succ] at hx
      have hmem : x ∈ rest := List.getElem?_mem hx
      rw [List.countP_cons_of_pos]
      · rw [ih hrest hx]
      · simpa using hlt x hmem

end StdMap

namespace cursesINDI

/-! ## The rebuild loop -/

theorem redrawLoop_elements (m : elementMapT) (kp : propMapT) (cells : List (List String))
    (i : Nat) :
    (redrawLoop m kp cells).1[i]? =
      (m[i]?).map (fun x => (x.1, { x.2 with tableRow := ((cells.length + i : Nat) : Int) })) := by
  induction m generalizing kp cells i with
  | nil => simp [redrawLoop]
  | cons x rest ih =>
    obtain ⟨k, es⟩ := x
    cases i with
    | zero => simp [redrawLoop]
    | succ j =>
      simp only [redrawLoop, List.getElem?_cons_succ]
      rw [ih]
      simp only [List.length_append, List.length_singleton]
      have e : cells.length + 1 + j = cells.length + (j + 1) := by omega
      rw [e]

theorem redrawLoop_elements_length (m : elementMapT) (kp : propMapT)
    (cells : List (List String)) : (redrawLoop m kp cells).1.length = m.length := by
  induction m generalizing kp cells with
  | nil => rfl
  | cons x rest ih =>
    obtain ⟨k, es⟩ := x
    simp [redrawLoop, ih]

theorem redrawLoop_cells_length (m : elementMapT) (kp : propMapT) (cells : List (List String)) :
    (redrawLoop m kp cells).2.2.length = cells.length + m.length := by
  induction m generalizing kp cells with
  | nil => rfl
  | cons x rest ih =>
    obtain ⟨k, es⟩ := x
    simp only [redrawLoop, ih, List.length_append, List.length_singleton, List.length_cons,
      List.length_nil]
    omega

theorem redrawLoop_cells_old (m : elementMapT) (kp : propMapT) (cells : List (List String))
    (i : Nat) (hi : i < cells.length) : (redrawLoop m kp cells).2.2[i]? = cells[i]? := by
  induction m generalizing kp cells with
  | nil => rfl
  | cons x rest ih =>
    obtain ⟨k, es⟩ := x
    simp only [redrawLoop]
    rw [ih _ _ (by simp; omega), List.getElem?_append_left hi]

theorem redrawLoop_cells_new (m : elementMapT) (kp : propMapT) (cells : List (List String))
    (i : Nat) (x : String × elementSpec) (hx : m[i]? = some x) :
    (redrawLoop m kp cells).2.2[cells.length + i]? =
      some (rowOf (cells.length + i) (StdMap.valueAt kp x.2.propKey) x.2) := by
  induction m generalizing kp cells i with
  | nil => simp at hx
  | cons y rest ih =>
    obtain ⟨k, es⟩ := y
    cases i with
    | zero =>
      simp only [List.getElem?_cons_zero, Option.some.injEq] at hx
      subst hx
      simp only [redrawLoop, Nat.add_zero]
      rw [redrawLoop_cells_old _ _ _ _ (by simp)]
      simp
    | succ j =>
      simp only [List.getElem?_cons_succ] at hx
      simp only [redrawLoop]
      have h := ih (StdMap.touch kp es.propKey) (cells ++ [rowOf cells.length
        (StdMap.valueAt kp es.propKey) es]) j hx
      simp only [List.length_append, List.length_singleton, StdMap.valueAt_touch] at h
      have e : cells.length + (j + 1) = cells.length + 1 + j := by omega
      rw [e]
      exact h

theorem redrawLoop_valueAt (m : elementMapT) (kp : propMapT) (cells : List (List String))
    (k : String) : StdMap.valueAt (redrawLoop m kp cells).2.1 k = StdMap.valueAt kp k := by
  induction m generalizing kp cells with
  | nil => rfl
  | cons x rest ih =>
    obtain ⟨k0, es⟩ := x
    simp only [redrawLoop]
    rw [ih, StdMap.valueAt_touch]

theorem redrawLoop_find_mono (m : elementMapT) (kp : propMapT) (cells : List (List String))
    (k : String) (h : (StdMap.find kp k).isSome = true) :
    (StdMap.find (redrawLoop m kp cells).2.1 k).isSome = true := by
  induction m generalizing kp cells with
  | nil => exact h
  | cons x rest ih =>
    obtain ⟨k0, es⟩ := x
    simp only [redrawLoop]
    exact ih _ _ (StdMap.find_touch_mono kp es.propKey h)

theorem redrawLoop_find (m : elementMapT) (kp : propMapT) (cells : List (List String))
    (x : String × elementSpec) (hx : x ∈ m) :
    (StdMap.find (redrawLoop m kp cells).2.1 x.2.propKey).isSome = true := by
  induction m generalizing kp cells with
  | nil => simp at hx
  | cons y rest ih =>
    obtain ⟨k0, es⟩ := y
    simp only [redrawLoop]
    rcases List.mem_cons.mp hx with h | h
    · subst h
      exact redrawLoop_find_mono _ _ _ _ (StdMap.find_touch_self kp es.propKey)
    · exact ih _ _ h

/-! ## The patch loop -/

/-- The patch loop changes nothing when every entry has a row whose value cell already shows
the current display value and whose property is present in the store. -/
theorem updateLoop_unchanged (m : elementMapT) (kp : propMapT) (cells : List (List String))
    (h : ∀ x ∈ m, 0 ≤ x.2.tableRow ∧ (StdMap.find kp x.2.propKey).isSome = true ∧
      ∃ row, cells[x.2.tableRow.toNat]? = some row ∧
        row[4]? = some (displayValue (StdMap.valueAt kp x.2.propKey) x.2.name)) :
    updateLoop m kp cells = some (kp, cells) := by
  induction m with
  | nil => rfl
  | cons y rest ih =>
    obtain ⟨k0, es⟩ := y
    obtain ⟨h0, hsome, row, hrow, hcell⟩ := h (k0, es) (List.mem_cons_self _ _)
    have ihr := ih (fun x hx => h x (List.mem_cons_of_mem _ hx))
    simp only at h0 hsome hrow hcell
    have h1 : ¬ es.tableRow = -1 := by omega
    have h2 : ¬ es.tableRow < 0 := by omega
    simp only [updateLoop, if_neg h1, if_neg h2, hrow, hcell, StdMap.touch_of_isSome hsome]
    simpa using ihr

end cursesINDI

end CursesINDI

namespace CursesINDI

namespace cursesINDI

/-! ## Keyboard loops -/

theorem confirmKey_skip (errs : List Int) (nch : Int) (rest : List Int)
    (herrs : ∀ x ∈ errs, x = ERR) (hn : nch ≠ ERR) :
    confirmKey (errs ++ nch :: rest) = some (nch, rest) := by
  induction errs with
  | nil => simp [confirmKey, hn]
  | cons e es ih =>
    have he : e = ERR := herrs e (List.mem_cons_self _ _)
    simp only [List.cons_append, confirmKey, if_pos he]
    exact ih (fun x hx => herrs x (List.mem_cons_of_mem _ hx))

theorem cursStat_idem (c : cursesINDI) (h : c.m_cursStat = 1) : cursStat 1 c = c := by
  cases c
  simp only [cursStat] at *
  subst h
  rfl

theorem candidateStep_ERR (s : List Char) : candidateStep s ERR = s := by
  simp [candidateStep, ERR, KEY_BACKSPACE, isprint]

/-- One pass through the capture loop on a key that is neither Enter nor Escape. -/
theorem editLoop_step (nch : Int) (keys : List Int) (newStr : List Char) (c : cursesINDI)
    (hc : c.m_cursStat = 1) (h10 : nch ≠ 10) (h27 : nch ≠ 27)
    (hq : nch = ERR → c.quitProcess = false) :
    editLoop (nch :: keys) newStr c = editLoop keys (candidateStep newStr nch) c := by
  by_cases he : nch = ERR
  · have hquit : ¬ c.quitProcess = true := by rw [hq he]; exact Bool.false_ne_true
    rw [he, candidateStep_ERR]
    simp only [editLoop]
    rw [if_neg (by simp [ERR]), if_pos trivial, if_neg hquit]
  · simp only [editLoop, if_neg h10, if_neg he, if_neg h27, cursStat_idem c hc]
    by_cases hb : nch = KEY_BACKSPACE
    · simp only [if_pos hb, candidateStep]
      by_cases hl : newStr.length > 0
      · rw [if_pos hl]
      · rw [if_neg hl]
        have : newStr = [] := by
          cases newStr with
          | nil => rfl
          | cons a l => simp at hl
        rw [this]; rfl
    · simp only [if_neg hb, candidateStep]
      by_cases hp : isprint nch = true
      · simp only [if_pos hp]
      · simp only [if_neg hp]

theorem editLoop_enter (typed rest : List Int) (newStr : List Char) (c : cursesINDI)
    (hc : c.m_cursStat = 1)
    (ht : ∀ x ∈ typed, x ≠ 10 ∧ x ≠ 27 ∧ (x = ERR → c.quitProcess = false)) :
    editLoop (typed ++ 10 :: rest) newStr c =
      some (false, typed.foldl candidateStep newStr, c, rest) := by
  induction typed generalizing newStr with
  | nil => simp [editLoop]
  | cons k ks ih =>
    obtain ⟨h10, h27, hq⟩ := ht k (List.mem_cons_self _ _)
    rw [List.cons_append, editLoop_step k _ newStr c hc h10 h27 hq, List.foldl_cons]
    exact ih _ (fun x hx => ht x (List.mem_cons_of_mem _ hx))

theorem editLoop_escape (typed rest : List Int) (newStr : List Char) (c : cursesINDI)
    (hc : c.m_cursStat = 1)
    (ht : ∀ x ∈ typed, x ≠ 10 ∧ x ≠ 27 ∧ (x = ERR → c.quitProcess = false)) :
    editLoop (typed ++ 27 :: rest) newStr c =
      some (true, typed.foldl candidateStep newStr, c, rest) := by
  induction typed generalizing newStr with
  | nil =>
    simp only [List.nil_append, editLoop, List.foldl_nil, cursStat_idem c hc]
    rw [if_neg (by decide), if_neg (by simp [ERR]), if_pos trivial]
  | cons k ks ih =>
    obtain ⟨h10, h27, hq⟩ := ht k (List.mem_cons_self _ _)
    rw [List.cons_append, editLoop_step k _ newStr c hc h10 h27 hq, List.foldl_cons]
    exact ih _ (fun x hx => ht x (List.mem_cons_of_mem _ hx))

end cursesINDI

end CursesINDI

namespace CursesINDI

namespace cursesINDI

/-! ## Deletion (C1, C2) -/

/-- C1, the code at the failing input: the delete event for property `camera1.exposure`
carries a valid device and a valid name, yet after handleDelProperty the key
`camera1.exposure` is still in knownProps and the ElementSpec whose propKey is that key is
still in knownElements; only m_redraw has grown by one. -/
theorem handleDelProperty_named_leaves_entries :
    delExposure.hasValidDevice = true ∧ delExposure.hasValidName = true ∧
      delExposure.createUniqueKey = "camera1.exposure" ∧
      StdMap.find (handleDelProperty delExposure oneElement).knownProps "camera1.exposure" =
        some (exposure "1.0") ∧
      (handleDelProperty delExposure oneElement).knownElements =
        [("camera1.exposure.value",
          { propKey := "camera1.exposure", device := "camera1", propertyName := "exposure",
            name := "value", tableRow := -1 })] ∧
      (handleDelProperty delExposure oneElement).m_redraw = oneElement.m_redraw + 1 := by
  decide

/-- C2, the code at the failing input: the delete event for the whole device `camera1`
empties knownElements, yet the property `camera1.exposure` of that device is still in
knownProps afterwards. -/
theorem handleDelProperty_device_leaves_property :
    delCamera1.hasValidDevice = true ∧ delCamera1.hasValidName = false ∧
      (handleDelProperty delCamera1 oneElement).knownElements = [] ∧
      StdMap.find (handleDelProperty delCamera1 oneElement).knownProps "camera1.exposure" =
        some (exposure "1.0") ∧
      (exposure "1.0").device = delCamera1.device := by
  decide

/-! ## Malformed events (C3) -/

/-- C3 as stated fails: a define event with a valid device but no property name is not
dropped; it enters knownProps and knownElements, raises m_redraw and is subscribed to. -/
theorem handleDefProperty_nameless_not_dropped :
    namelessEvent.hasValidDevice = true ∧ namelessEvent.hasValidName = false ∧
      StdMap.find (handleDefProperty namelessEvent init).knownProps "camera1." =
        some namelessEvent ∧
      (handleDefProperty namelessEvent init).knownElements.length = 1 ∧
      (handleDefProperty namelessEvent init).m_redraw = 1 ∧
      (handleDefProperty namelessEvent init).sentGetProperties = [namelessEvent] ∧
      handleSetProperty namelessEvent init = handleDefProperty namelessEvent init := by
  decide

/-- C3 amended: a define/update event that has neither a valid device nor a valid property
name leaves the whole object unchanged under handleDefProperty and handleSetProperty, so
knownProps, knownElements, m_redraw, m_update and the subscribe log are as before. -/
theorem handleDefProperty_drops_anonymous (ip : IndiProperty) (c : cursesINDI)
    (hd : ip.hasValidDevice = false) (hn : ip.hasValidName = false) :
    handleDefProperty ip c = c ∧ handleSetProperty ip c = c := by
  have h : handleDefProperty ip c = c := by
    unfold handleDefProperty
    rw [if_pos (by simp [hd, hn])]
  exact ⟨h, h⟩

theorem handleDefProperty_drops_anonymous_witness :
    anonymousEvent.hasValidDevice = false ∧ anonymousEvent.hasValidName = false ∧
      handleDefProperty anonymousEvent oneElement = oneElement ∧
      handleSetProperty anonymousEvent oneElement = oneElement :=
  ⟨by decide, by decide,
    handleDefProperty_drops_anonymous anonymousEvent oneElement (by decide) (by decide)⟩

/-! ## Subscription (C4) -/

theorem defineAll_nil (c : cursesINDI) : defineAll [] c = c := rfl

theorem defineAll_cons (ip : IndiProperty) (evs : List IndiProperty) (c : cursesINDI) :
    defineAll (ip :: evs) c = defineAll evs (handleDefProperty ip c) := rfl

theorem defineAll_append (pre post : List IndiProperty) (c : cursesINDI) :
    defineAll (pre ++ post) c = defineAll post (defineAll pre c) := by
  simp [defineAll, List.foldl_append]

theorem valid_of_wellFormed {ip : IndiProperty}
    (h : ip.hasValidDevice = true ∧ ip.hasValidName = true) :
    (!ip.hasValidDevice && !ip.hasValidName) = false := by
  simp [h.1]

theorem defineAll_sorted (evs : List IndiProperty) (c : cursesINDI)
    (hs : StdMap.Sorted c.knownProps)
    (hw : ∀ ip ∈ evs, ip.hasValidDevice = true ∧ ip.hasValidName = true) :
    StdMap.Sorted (defineAll evs c).knownProps := by
  induction evs generalizing c with
  | nil => exact hs
  | cons ip rest ih =>
    rw [defineAll_cons]
    apply ih
    · exact (handleDefProperty_step ip c hs
        (valid_of_wellFormed (hw ip (List.mem_cons_self _ _)))).2.2.1
    · intro x hx
      exact hw x (List.mem_cons_of_mem _ hx)

theorem subscribeCount_append (k : String) (a b : List IndiProperty) :
    subscribeCount k (a ++ b) = subscribeCount k a + subscribeCount k b := by
  simp [subscribeCount, List.count_append]

theorem defineAll_subscribeCount (evs : List IndiProperty) (c : cursesINDI)
    (hs : StdMap.Sorted c.knownProps)
    (hw : ∀ ip ∈ evs, ip.hasValidDevice = true ∧ ip.hasValidName = true) (k : String) :
    subscribeCount k (defineAll evs c).sentGetProperties =
      subscribeCount k c.sentGetProperties +
        (if (StdMap.find c.knownProps k).isSome = false ∧
            k ∈ evs.map IndiProperty.createUniqueKey then 1 else 0) := by
  induction evs generalizing c with
  | nil => simp [defineAll_nil]
  | cons ip rest ih =>
    have hstep := handleDefProperty_step ip c hs
      (valid_of_wellFormed (hw ip (List.mem_cons_self _ _)))
    obtain ⟨hsent, hfind, hsorted, hother⟩ := hstep
    rw [defineAll_cons, ih _ hsorted (fun x hx => hw x (List.mem_cons_of_mem _ hx)), hsent,
      subscribeCount_append]
    by_cases hk : k = ip.createUniqueKey
    · subst hk
      rw [hfind]
      by_cases hknown : (StdMap.find c.knownProps ip.createUniqueKey).isSome = true
      · simp [hknown, subscribeCount]
      · simp [hknown, subscribeCount]
    · rw [hother k hk]
      have hne : ¬ ip.createUniqueKey = k := fun h => hk h.symm
      have hcount : subscribeCount k
          (if (StdMap.find c.knownProps ip.createUniqueKey).isSome = true then []
            else [ip]) = 0 := by
        split
        · rfl
        · simp only [subscribeCount, List.map_cons, List.map_nil]
          rw [List.count_cons, List.count_nil]
          simp [hne]
      rw [hcount]
      simp [hk]

/-- C4: over any sequence of well-formed define/update events handled from a registry whose
knownProps is a proper map, (1) each call of handleDefProperty appends a subscribe request for
the event exactly when the event's unique key was not in knownProps before that call, and
nothing otherwise, and afterwards knownProps maps the key to the property just received;
(2) over the whole sequence the number of subscribe requests sent for a key is one if the key
was unknown at the start and occurs in the sequence, and zero otherwise. -/
theorem handleDefProperty_subscribes_once (c : cursesINDI) (evs : List IndiProperty)
    (hs : StdMap.Sorted c.knownProps)
    (hw : ∀ ip ∈ evs, ip.hasValidDevice = true ∧ ip.hasValidName = true) :
    (∀ pre ip post, evs = pre ++ ip :: post →
        (handleDefProperty ip (defineAll pre c)).sentGetProperties =
            (defineAll pre c).sentGetProperties ++
              (if (StdMap.find (defineAll pre c).knownProps ip.createUniqueKey).isSome = true
                then [] else [ip]) ∧
          StdMap.find (handleDefProperty ip (defineAll pre c)).knownProps ip.createUniqueKey =
            some ip) ∧
      ∀ k, subscribeCount k (defineAll evs c).sentGetProperties =
        subscribeCount k c.sentGetProperties +
          (if (StdMap.find c.knownProps k).isSome = false ∧
              k ∈ evs.map IndiProperty.createUniqueKey then 1 else 0) := by
  refine ⟨?_, defineAll_subscribeCount evs c hs hw⟩
  intro pre ip post hsplit
  have hpre : ∀ x ∈ pre, x.hasValidDevice = true ∧ x.hasValidName = true := by
    intro x hx
    exact hw x (by rw [hsplit]; exact List.mem_append_left _ hx)
  have hip : ip.hasValidDevice = true ∧ ip.hasValidName = true :=
    hw ip (by rw [hsplit]; exact List.mem_append_right _ (List.mem_cons_self _ _))
  have hstep := handleDefProperty_step ip (defineAll pre c) (defineAll_sorted pre c hs hpre)
    (valid_of_wellFormed hip)
  exact ⟨hstep.1, hstep.2.1⟩

theorem handleDefProperty_subscribes_once_witness :
    StdMap.Sorted init.knownProps ∧
      (∀ ip ∈ [exposure "1.0", exposure "2.0"],
        ip.hasValidDevice = true ∧ ip.hasValidName = true) ∧
      ((handleDefProperty (exposure "2.0") (defineAll [exposure "1.0"] init)).sentGetProperties =
          (defineAll [exposure "1.0"] init).sentGetProperties ++ [] ∧
        StdMap.find
            (handleDefProperty (exposure "2.0") (defineAll [exposure "1.0"] init)).knownProps
            (exposure "2.0").createUniqueKey = some (exposure "2.0")) ∧
      subscribeCount "camera1.exposure"
          (defineAll [exposure "1.0", exposure "2.0"] init).sentGetProperties =
        subscribeCount "camera1.exposure" init.sentGetProperties + 1 :=
  ⟨by decide, by decide,
    (handleDefProperty_subscribes_once init [exposure "1.0", exposure "2.0"] (by decide)
      (by decide)).1 [exposure "1.0"] (exposure "2.0") [] rfl,
    (handleDefProperty_subscribes_once init [exposure "1.0", exposure "2.0"] (by decide)
      (by decide)).2 "camera1.exposure"⟩

end cursesINDI

end CursesINDI

namespace CursesINDI

namespace cursesINDI

/-! ## Render cycle (C5, C6, C7) -/

theorem redrawTable_m_redraw (c : cursesINDI) : (redrawTable c).m_redraw = 0 := by
  simp [redrawTable, redrawSettle, redrawRebuild]

theorem redrawTable_m_update (c : cursesINDI) : (redrawTable c).m_update = c.m_update := rfl

/-- Every entry left by redrawTable has a row in the table whose value cell shows the
entry's current display value, and its property is present in knownProps. -/
theorem redrawTable_cells_current (c : cursesINDI) :
    ∀ x ∈ (redrawTable c).knownElements,
      0 ≤ x.2.tableRow ∧ (StdMap.find (redrawTable c).knownProps x.2.propKey).isSome = true ∧
      ∃ row, (redrawTable c).m_cellContents[x.2.tableRow.toNat]? = some row ∧
        row[4]? =
          some (displayValue (StdMap.valueAt (redrawTable c).knownProps x.2.propKey) x.2.name) := by
  intro x hx
  change x ∈ (redrawLoop c.knownElements c.knownProps []).1 at hx
  change 0 ≤ x.2.tableRow ∧
    (StdMap.find (redrawLoop c.knownElements c.knownProps []).2.1 x.2.propKey).isSome = true ∧
    ∃ row, (redrawLoop c.knownElements c.knownProps []).2.2[x.2.tableRow.toNat]? = some row ∧
      row[4]? = some (displayValue
        (StdMap.valueAt (redrawLoop c.knownElements c.knownProps []).2.1 x.2.propKey) x.2.name)
  obtain ⟨i, hi⟩ := List.mem_iff_getElem?.mp hx
  rw [redrawLoop_elements] at hi
  cases hm : c.knownElements[i]? with
  | none => rw [hm] at hi; simp at hi
  | some y =>
    rw [hm] at hi
    simp only [Option.map_some', Option.some.injEq, List.length_nil, Nat.zero_add] at hi
    subst hi
    have hnew := redrawLoop_cells_new c.knownElements c.knownProps [] i y hm
    simp only [List.length_nil, Nat.zero_add] at hnew
    refine ⟨by simp, ?_, ?_⟩
    · exact redrawLoop_find _ _ _ y (List.getElem?_mem hm)
    · refine ⟨rowOf i (StdMap.valueAt c.knownProps y.2.propKey) y.2, ?_, ?_⟩
      · simpa using hnew
      · rw [redrawLoop_valueAt]
        simp [rowOf]

/-- C5 as stated fails: with both counters at 1, one pass through the loop body of
drawThreadExec ends with m_update at 0, not at the value it had before the pass. -/
theorem drawThreadBody_resets_m_update :
    0 < bothPending.m_redraw ∧ 0 < bothPending.m_update ∧ bothPending.m_update = 1 ∧
      (drawThreadBody bothPending).map (fun s => s.m_update) = some 0 := by
  decide

/-- C5 amended: for every state with m_redraw > 0 and m_update > 0, one pass through the loop
body of drawThreadExec (no events arriving during it) runs redrawTable and then the pass of
updateTable, which finds every value cell current and alters no cell, no row index and no
stored property; the pass ends in the state redrawTable produced with m_update set to 0, and
m_redraw is 0. -/
theorem drawThreadBody_both_pending (c : cursesINDI) (hr : 0 < c.m_redraw)
    (hu : 0 < c.m_update) :
    drawThreadBody c = some { redrawTable c with m_update := 0 } ∧
      (redrawTable c).m_redraw = 0 := by
  refine ⟨?_, redrawTable_m_redraw c⟩
  have hloop := updateLoop_unchanged (redrawTable c).knownElements (redrawTable c).knownProps
    (redrawTable c).m_cellContents (redrawTable_cells_current c)
  unfold drawThreadBody
  simp only [if_pos hr, redrawTable_m_update, if_pos hu]
  unfold updateTable
  rw [if_neg (by rw [redrawTable_m_redraw]; simp)]
  unfold updatePatch
  rw [hloop]
  simp [updateSettle]

theorem drawThreadBody_both_pending_witness :
    0 < bothPending.m_redraw ∧ 0 < bothPending.m_update ∧
      drawThreadBody bothPending = some { redrawTable bothPending with m_update := 0 } ∧
      (redrawTable bothPending).m_redraw = 0 :=
  ⟨by decide, by decide, drawThreadBody_both_pending bothPending (by decide) (by decide)⟩

/-- C6 as stated fails: when the loop stops on a disconnect with one element in the
registry, the final pass leaves a table with one row, not an empty one. -/
theorem drawThreadExec_final_table_not_empty :
    disconnected.quitProcess = true ∧ disconnected.m_shutdown = false ∧
      (drawThreadExec 0 disconnected).map (fun s => s.m_cellContents) =
        some [["1", "camera1", "exposure", "value", "1.0"]] := by
  decide

/-- C6 amended: when the render loop stops because the peer disconnected without a shutdown
having been requested, drawThreadExec returns, its final pass (clear rows, then redrawTable)
leaves a table with one row per entry of knownElements, and m_shutdown and m_connectionLost
are both set. -/
theorem drawThreadExec_on_disconnect (fuel : Nat) (c : cursesINDI)
    (hq : c.quitProcess = true) (hs : c.m_shutdown = false) :
    ∃ s, drawThreadExec fuel c = some s ∧
      s.m_cellContents.length = c.knownElements.length ∧
      s.m_shutdown = true ∧ s.m_connectionLost = true := by
  have hcond : ¬ (!c.m_shutdown && !c.quitProcess) = true := by simp [hq]
  have hexec : drawThreadExec fuel c = some (drawThreadEnd c) := by
    cases fuel with
    | zero => simp only [drawThreadExec, if_neg hcond]
    | succ n => simp only [drawThreadExec, if_neg hcond]
  refine ⟨drawThreadEnd c, hexec, ?_, ?_, ?_⟩
  · have hlen := redrawLoop_cells_length c.knownElements c.knownProps []
    simp only [drawThreadEnd, hq, hs]
    simpa [redrawTable, redrawSettle, redrawRebuild] using hlen
  · simp [drawThreadEnd, hq, hs]
  · simp [drawThreadEnd, hq, hs, redrawTable, redrawSettle, redrawRebuild]

theorem drawThreadExec_on_disconnect_witness :
    disconnected.quitProcess = true ∧ disconnected.m_shutdown = false ∧
      ∃ s, drawThreadExec 3 disconnected = some s ∧
        s.m_cellContents.length = disconnected.knownElements.length ∧
        s.m_shutdown = true ∧ s.m_connectionLost = true :=
  ⟨by decide, by decide, drawThreadExec_on_disconnect 3 disconnected (by decide) (by decide)⟩

/-- C7: for every registry state whose knownElements is a proper map with n entries, after
redrawTable the table has exactly n rows, knownElements keeps its n keys, the tableRow values
read in key order are 0, 1, ..., n-1, and for the entry at position i: exactly i keys are
smaller than its key, its tableRow is i, and row i holds the strings (i+1, device and
name of the property stored under its propKey, element name, displayValue of the element). -/
theorem redrawTable_rows (c : cursesINDI) (hs : StdMap.Sorted c.knownElements) :
    (redrawTable c).m_cellContents.length = c.knownElements.length ∧
      (redrawTable c).knownElements.map Prod.fst = c.knownElements.map Prod.fst ∧
      (redrawTable c).knownElements.map (fun x => x.2.tableRow) =
        (List.range c.knownElements.length).map Int.ofNat ∧
      ∀ (i : Nat) (k : String) (es : elementSpec), c.knownElements[i]? = some (k, es) →
        c.knownElements.countP (fun y => decide (y.1.data < k.data)) = i ∧
          (redrawTable c).knownElements[i]? = some (k, { es with tableRow := (i : Int) }) ∧
          (redrawTable c).m_cellContents[i]? =
            some [toString (i + 1), (StdMap.valueAt c.knownProps es.propKey).device,
              (StdMap.valueAt c.knownProps es.propKey).name, es.name,
              displayValue (StdMap.valueAt c.knownProps es.propKey) es.name] := by
  have hel : ∀ i : Nat, (redrawTable c).knownElements[i]? =
      (c.knownElements[i]?).map
        (fun (x : String × elementSpec) => (x.1, { x.2 with tableRow := (i : Int) })) := by
    intro i
    have h := redrawLoop_elements c.knownElements c.knownProps [] i
    simpa using h
  refine ⟨?_, ?_, ?_, ?_⟩
  · have hlen := redrawLoop_cells_length c.knownElements c.knownProps []
    simpa [redrawTable, redrawSettle, redrawRebuild] using hlen
  · apply List.ext_getElem?
    intro i
    rw [List.getElem?_map, List.getElem?_map, hel]
    cases c.knownElements[i]? <;> rfl
  · apply List.ext_getElem?
    intro i
    rw [List.getElem?_map, List.getElem?_map, hel]
    by_cases hi : i < c.knownElements.length
    · rw [List.getElem?_range hi, List.getElem?_eq_getElem hi]
      rfl
    · rw [List.getElem?_eq_none (by omega), List.getElem?_eq_none (by simp; omega)]
      rfl
  · intro i k es hx
    refine ⟨StdMap.countP_less_of_sorted hs hx, ?_, ?_⟩
    · rw [hel, hx]; rfl
    · have hnew := redrawLoop_cells_new c.knownElements c.knownProps [] i (k, es) hx
      simpa [rowOf] using hnew

theorem redrawTable_rows_witness :
    StdMap.Sorted (handleDefProperty (shutter SwitchStateType.Off) oneElement).knownElements ∧
      (twoRows SwitchStateType.Off).m_cellContents.length = 2 ∧
      (twoRows SwitchStateType.Off).knownElements.map (fun x => x.2.tableRow) = [0, 1] ∧
      (twoRows SwitchStateType.Off).m_cellContents =
        [["1", "camera1", "exposure", "value", "1.0"],
         ["2", "camera1", "shutter", "toggle", "Off"]] :=
  ⟨by decide,
    (redrawTable_rows (handleDefProperty (shutter SwitchStateType.Off) oneElement)
      (by decide)).1,
    (redrawTable_rows (handleDefProperty (shutter SwitchStateType.Off) oneElement)
      (by decide)).2.2.1,
    by decide⟩

end cursesINDI

end CursesINDI

namespace CursesINDI

namespace cursesINDI

/-! ## Toggle and edit commands (C8, C9) -/

/-- C8: let `es` be the element the toggle command finds at the cursor row and `ip` the
property stored under its propKey. If the element's switch state in `ip` is Off and the first
key read is y, keyPressed returns and exactly one request is appended, carrying the type,
device and name of `ip` and only that element with state On; if the state is On the request
carries Off; if the first key read is not y no request is sent; and if the element has
neither state (or is not in `ip`) no request is sent and no key is read. -/
theorem keyPressed_toggle (c : cursesINDI) (es : elementSpec) (errs rest : List Int)
    (nch : Int) (hrow : c.m_currY + c.m_startRow < c.knownElements.length)
    (hes : findRow (c.m_currY + c.m_startRow) c.knownElements = some es)
    (herrs : ∀ x ∈ errs, x = ERR) (hn : nch ≠ ERR) :
    (∀ el, StdMap.find (StdMap.valueAt c.knownProps es.propKey).elements es.name = some el →
        el.switchState = SwitchStateType.Off →
        ∃ s, keyPressed 116 (errs ++ 121 :: rest) c = some (s, rest) ∧
          s.sentGetProperties = c.sentGetProperties ∧
          s.sentNewProperty = c.sentNewProperty ++
            [{ type := (StdMap.valueAt c.knownProps es.propKey).type,
               device := (StdMap.valueAt c.knownProps es.propKey).device,
               name := (StdMap.valueAt c.knownProps es.propKey).name,
               elements := [(es.name, { name := es.name, value := "",
                                        switchState := SwitchStateType.On })] }]) ∧
      (∀ el, StdMap.find (StdMap.valueAt c.knownProps es.propKey).elements es.name = some el →
        el.switchState = SwitchStateType.On →
        ∃ s, keyPressed 116 (errs ++ 121 :: rest) c = some (s, rest) ∧
          s.sentGetProperties = c.sentGetProperties ∧
          s.sentNewProperty = c.sentNewProperty ++
            [{ type := (StdMap.valueAt c.knownProps es.propKey).type,
               device := (StdMap.valueAt c.knownProps es.propKey).device,
               name := (StdMap.valueAt c.knownProps es.propKey).name,
               elements := [(es.name, { name := es.name, value := "",
                                        switchState := SwitchStateType.Off })] }]) ∧
      (nch ≠ 121 →
        ∃ s keys, keyPressed 116 (errs ++ nch :: rest) c = some (s, keys) ∧
          s.sentGetProperties = c.sentGetProperties ∧
          s.sentNewProperty = c.sentNewProperty) ∧
      ((∀ el, StdMap.find (StdMap.valueAt c.knownProps es.propKey).elements es.name = some el →
          el.switchState ≠ SwitchStateType.Off ∧ el.switchState ≠ SwitchStateType.On) →
        ∀ keys, ∃ s, keyPressed 116 keys c = some (s, keys) ∧
          s.sentGetProperties = c.sentGetProperties ∧
          s.sentNewProperty = c.sentNewProperty) := by
  have hge : ¬ c.m_currY + c.m_startRow ≥ c.knownElements.length := by omega
  have hy : confirmKey (errs ++ 121 :: rest) = some (121, rest) :=
    confirmKey_skip errs 121 rest herrs (by simp [ERR])
  have hk : confirmKey (errs ++ nch :: rest) = some (nch, rest) :=
    confirmKey_skip errs nch rest herrs hn
  have h116 : keyPressed 116 = keyToggle := by
    funext keys s
    simp [keyPressed]
  rw [h116]
  refine ⟨?_, ?_, ?_, ?_⟩
  · intro el hel hoff
    simp only [keyToggle, if_neg hge, hes, hel, hoff, toggleConfirm, hy]
    refine ⟨_, rfl, rfl, ?_⟩
    simp [keyDone, cursStat, toggleRequest, StdMap.valueAt_touch]
  · intro el hel hon
    have hne : ¬ SwitchStateType.On = SwitchStateType.Off := by decide
    simp only [keyToggle, if_neg hge, hes, hel, hon, toggleConfirm, hy, if_neg hne]
    refine ⟨_, rfl, rfl, ?_⟩
    simp [keyDone, cursStat, toggleRequest, StdMap.valueAt_touch]
  · intro hny
    simp only [keyToggle, if_neg hge, hes]
    cases hel : StdMap.find (StdMap.valueAt c.knownProps es.propKey).elements es.name with
    | none => exact ⟨_, _, rfl, rfl, rfl⟩
    | some el =>
      simp only
      by_cases hoff : el.switchState = SwitchStateType.Off
      · simp only [if_pos hoff, toggleConfirm, hk, if_neg hny]
        exact ⟨_, _, rfl, rfl, rfl⟩
      · by_cases hon : el.switchState = SwitchStateType.On
        · simp only [if_neg hoff, if_pos hon, toggleConfirm, hk, if_neg hny]
          exact ⟨_, _, rfl, rfl, rfl⟩
        · simp only [if_neg hoff, if_neg hon]
          exact ⟨_, _, rfl, rfl, rfl⟩
  · intro hnone keys
    simp only [keyToggle, if_neg hge, hes]
    cases hel : StdMap.find (StdMap.valueAt c.knownProps es.propKey).elements es.name with
    | none => exact ⟨_, rfl, rfl, rfl⟩
    | some el =>
      obtain ⟨hoff, hon⟩ := hnone el hel
      simp only [if_neg hoff, if_neg hon]
      exact ⟨_, rfl, rfl, rfl⟩

theorem keyPressed_toggle_witness :
    (cursorOnShutter SwitchStateType.Off).m_currY + (cursorOnShutter SwitchStateType.Off).m_startRow
        < (cursorOnShutter SwitchStateType.Off).knownElements.length ∧
      findRow 1 (cursorOnShutter SwitchStateType.Off).knownElements = some shutterSpec ∧
      ∃ s, keyPressed 116 ([ERR] ++ 121 :: []) (cursorOnShutter SwitchStateType.Off) =
          some (s, []) ∧
        s.sentGetProperties = (cursorOnShutter SwitchStateType.Off).sentGetProperties ∧
        s.sentNewProperty = (cursorOnShutter SwitchStateType.Off).sentNewProperty ++
          [{ type := PropertyType.Switch, device := "camera1", name := "shutter",
             elements := [("toggle", { name := "toggle", value := "",
                                       switchState := SwitchStateType.On })] }] :=
  ⟨by decide, by decide,
    (keyPressed_toggle (cursorOnShutter SwitchStateType.Off) shutterSpec [ERR] [] 110
      (by decide) (by decide) (by decide) (by decide)).1
      { name := "toggle", value := "", switchState := SwitchStateType.Off }
      (by decide) (by decide)⟩

/-- C9: let `es` be the element the edit command finds at the cursor row and `ip` the
property stored under its propKey, and let `typed` be any keystrokes before the first Enter or
Escape (values ERR among them only while the peer is connected). The string captured is
`candidate typed`: each printable character appended, the last character removed on
backspace, nothing changed by backspace on the empty string. If Escape comes next,
keyPressed returns and no request is sent; if Enter comes next and the first key read after
it is y, exactly one request is appended, carrying the type, device and name of `ip` and only
the edited element with the candidate string as its value; if that key is any other, no
request is sent. -/
theorem keyPressed_edit (c : cursesINDI) (es : elementSpec) (typed errs rest : List Int)
    (nch : Int) (hrow : c.m_currY + c.m_startRow < c.knownElements.length)
    (hes : findRow (c.m_currY + c.m_startRow) c.knownElements = some es)
    (htyped : ∀ x ∈ typed, x ≠ 10 ∧ x ≠ 27 ∧ (x = ERR → c.quitProcess = false))
    (herrs : ∀ x ∈ errs, x = ERR) (hn : nch ≠ ERR) :
    editLoop (typed ++ 10 :: rest) [] (cursStat 1 c) =
        some (false, candidate typed, cursStat 1 c, rest) ∧
      (∃ s, keyPressed 101 (typed ++ 27 :: rest) c = some (s, rest) ∧
        s.sentGetProperties = c.sentGetProperties ∧
        s.sentNewProperty = c.sentNewProperty) ∧
      (∃ s, keyPressed 101 (typed ++ 10 :: (errs ++ 121 :: rest)) c = some (s, rest) ∧
        s.sentGetProperties = c.sentGetProperties ∧
        s.sentNewProperty = c.sentNewProperty ++
          [{ type := (StdMap.valueAt c.knownProps es.propKey).type,
             device := (StdMap.valueAt c.knownProps es.propKey).device,
             name := (StdMap.valueAt c.knownProps es.propKey).name,
             elements := [(es.name, { name := es.name, value := String.mk (candidate typed),
                                      switchState := SwitchStateType.UnknownSwitchState })] }]) ∧
      (nch ≠ 121 →
        ∃ s, keyPressed 101 (typed ++ 10 :: (errs ++ nch :: rest)) c = some (s, rest) ∧
          s.sentGetProperties = c.sentGetProperties ∧
          s.sentNewProperty = c.sentNewProperty) := by
  have hge : ¬ c.m_currY + c.m_startRow ≥ c.knownElements.length := by omega
  have hy : confirmKey (errs ++ 121 :: rest) = some (121, rest) :=
    confirmKey_skip errs 121 rest herrs (by simp [ERR])
  have hk : confirmKey (errs ++ nch :: rest) = some (nch, rest) :=
    confirmKey_skip errs nch rest herrs hn
  have h101 : keyPressed 101 = keyEdit := by
    funext keys s
    simp [keyPressed]
  have hc1 : (cursStat 1 c).m_cursStat = 1 := rfl
  have ht1 : ∀ x ∈ typed, x ≠ 10 ∧ x ≠ 27 ∧ (x = ERR → (cursStat 1 c).quitProcess = false) :=
    htyped
  have henter : ∀ tail, editLoop (typed ++ 10 :: tail) [] (cursStat 1 c) =
      some (false, candidate typed, cursStat 1 c, tail) :=
    fun tail => editLoop_enter typed tail [] (cursStat 1 c) hc1 ht1
  have hesc := editLoop_escape typed rest [] (cursStat 1 c) hc1 ht1
  rw [h101]
  refine ⟨henter rest, ?_, ?_, ?_⟩
  · simp only [keyEdit, if_neg hge, hes, hesc]
    exact ⟨_, rfl, rfl, rfl⟩
  · simp only [keyEdit, if_neg hge, hes, henter, hy]
    refine ⟨_, rfl, rfl, ?_⟩
    simp [keyDone, cursStat, editRequest]
  · intro hny
    simp only [keyEdit, if_neg hge, hes, henter, hk, if_neg hny]
    exact ⟨_, rfl, rfl, rfl⟩

theorem keyPressed_edit_witness :
    oneRow.m_currY + oneRow.m_startRow < oneRow.knownElements.length ∧
      findRow (oneRow.m_currY + oneRow.m_startRow) oneRow.knownElements = some exposureSpec ∧
      candidate [51, 46, 55, KEY_BACKSPACE, 53] = ['3', '.', '5'] ∧
      ∃ s, keyPressed 101 ([51, 46, 55, KEY_BACKSPACE, 53] ++ 10 :: ([ERR] ++ 121 :: [])) oneRow =
          some (s, []) ∧
        s.sentGetProperties = oneRow.sentGetProperties ∧
        s.sentNewProperty = oneRow.sentNewProperty ++
          [{ type := PropertyType.Number, device := "camera1", name := "exposure",
             elements := [("value", { name := "value", value := "3.5",
                                      switchState := SwitchStateType.UnknownSwitchState })] }] :=
  ⟨by decide, by decide, by decide,
    (keyPressed_edit oneRow exposureSpec [51, 46, 55, KEY_BACKSPACE, 53] [ERR] [] 110
      (by decide) (by decide) (by decide) (by decide) (by decide)).2.2.1⟩

end cursesINDI

end CursesINDI
